import Mathlib

/-!
Verification development for the MR_Dev extraction-and-entity-resolution
pipeline.  The Python sources are shallowly embedded as executable Lean
functions over `List Char` / `String`:

* `src/utils/project_matcher.py` — `ProjectMatcher._normalize`,
  `ProjectMatcher.is_junk_name`, `ProjectMatcher.match`,
  `ProjectMatcher._try_alias`, `ProjectMatcher._load_projects`;
* `src/utils/text_parser.py` — `extract_absorption` and its regexes;
* `src/extractors/base_extractor.py` — `BaseExtractor.split_by_projects`;
* `src/extractors/price_pass_extractor.py` — `_detect_checked_factors`,
  `_infer_factors_from_description`, and the city/percentage part of
  `_extract_segments`;
* `src/seeders/base_seeder.py` — `BaseSeeder._get_or_create` and
  `LineageAwareSeeder._get_or_create_with_lineage`.

Modelling conventions: Python strings are `String` (a list of code points,
so `len` agrees with `List.length`); the regular expressions used by the
code are compiled by hand into character-list matchers that follow Python's
leftmost / first-alternative / greedy semantics (each regex in scope is
deterministic under greedy matching, as noted next to its embedding);
Python `str.lower`/`str.upper`/`\w`/`\s`/`\d` are modelled on ASCII, which
covers every character class decision the embedded code makes on the
concrete inputs of the theorems below (the only non-ASCII characters in
play are the Unicode dashes, handled explicitly); Python floats are
modelled as `ℚ`, and `round(x, 2)` as exact half-even rounding to two
decimals.
-/

namespace MRDev

/-! ### Character classes (Python `\s`, `\d`, `\w`, ASCII case) -/

/-- Python `\s` on ASCII: space, tab, newline, carriage return, vertical
tab, form feed. -/
def isPySpace (c : Char) : Bool :=
  c == ' ' || c == '\t' || c == '\n' || c == '\r' || c == '\x0b' || c == '\x0c'

/-- Python `\d` on ASCII. -/
def isAsciiDigit (c : Char) : Bool :=
  '0' ≤ c && c ≤ '9'

/-- Uppercase/lowercase ASCII letter pairs, used to model `str.lower`,
`str.upper` and the `[A-Z]` character class without `Char.ofNat`
arithmetic. -/
def caseTable : List (Char × Char) :=
  [('A', 'a'), ('B', 'b'), ('C', 'c'), ('D', 'd'), ('E', 'e'), ('F', 'f'),
   ('G', 'g'), ('H', 'h'), ('I', 'i'), ('J', 'j'), ('K', 'k'), ('L', 'l'),
   ('M', 'm'), ('N', 'n'), ('O', 'o'), ('P', 'p'), ('Q', 'q'), ('R', 'r'),
   ('S', 's'), ('T', 't'), ('U', 'u'), ('V', 'v'), ('W', 'w'), ('X', 'x'),
   ('Y', 'y'), ('Z', 'z')]

/-- ASCII uppercase letter test (`[A-Z]`). -/
def isAsciiUpper (c : Char) : Bool :=
  caseTable.any (fun p => p.1 == c)

/-- ASCII lowercase letter test (`[a-z]`). -/
def isAsciiLower (c : Char) : Bool :=
  caseTable.any (fun p => p.2 == c)

/-- Lowercase one character (ASCII model of Python `str.lower`). -/
def asciiLower (c : Char) : Char :=
  (((caseTable.find? (fun p => p.1 == c)).map (fun p => p.2)).getD c)

/-- Uppercase one character (ASCII model of Python `str.upper`). -/
def asciiUpper (c : Char) : Char :=
  (((caseTable.find? (fun p => p.2 == c)).map (fun p => p.1)).getD c)

/-- Python `\w` on ASCII: letters, digits, underscore. -/
def isWordCh (c : Char) : Bool :=
  isAsciiUpper c || isAsciiLower c || isAsciiDigit c || c == '_'

def toLowerChars (cs : List Char) : List Char :=
  cs.map asciiLower

def toUpperChars (cs : List Char) : List Char :=
  cs.map asciiUpper

/-- Python `str.strip()` on a character list. -/
def pyStripChars (cs : List Char) : List Char :=
  ((cs.dropWhile isPySpace).reverse.dropWhile isPySpace).reverse

def pyStrip (s : String) : String :=
  ⟨pyStripChars s.data⟩

def toLowerStr (s : String) : String :=
  ⟨toLowerChars s.data⟩

/-! ### Small matcher combinators

Each `eat…` function consumes a piece of input at the current position
and returns the rest, or `none` when the piece is missing.  They model the
corresponding regex fragments under Python's greedy semantics. -/

/-- Regex fragment `\s*`. -/
def eatWsStar (cs : List Char) : List Char :=
  cs.dropWhile isPySpace

/-- Regex fragment `\s+`. -/
def eatWsPlus (cs : List Char) : Option (List Char) :=
  match cs with
  | c :: rest => if isPySpace c then some (eatWsStar rest) else none
  | [] => none

/-- Character class `[-–—]` (ASCII hyphen, en dash, em dash). -/
def isDashCh (c : Char) : Bool :=
  c == '-' || c == '–' || c == '—'

/-- Regex fragment `[-–—]`. -/
def eatDash (cs : List Char) : Option (List Char) :=
  match cs with
  | c :: rest => if isDashCh c then some rest else none
  | [] => none

/-- Literal match, case-insensitive; `pat` is given in lowercase. -/
def eatCaseless (pat : List Char) (cs : List Char) : Option (List Char) :=
  match pat, cs with
  | [], rest => some rest
  | _ :: _, [] => none
  | p :: ps, c :: rest => if asciiLower c == p then eatCaseless ps rest else none

/-- Literal match, case-sensitive. -/
def eatLit (pat : List Char) (cs : List Char) : Option (List Char) :=
  match pat, cs with
  | [], rest => some rest
  | _ :: _, [] => none
  | p :: ps, c :: rest => if c == p then eatLit ps rest else none

/-- Regex fragment `\d+` (greedy). -/
def eatDigitsPlus (cs : List Char) : Option (List Char) :=
  match cs with
  | c :: rest => if isAsciiDigit c then some (rest.dropWhile isAsciiDigit) else none
  | [] => none

/-- Regex fragment `\d*` (greedy). -/
def eatDigitsStar (cs : List Char) : List Char :=
  cs.dropWhile isAsciiDigit

/-- Regex fragment `X?` for a single character `X`. -/
def eatOptChar (x : Char) (cs : List Char) : List Char :=
  match cs with
  | c :: rest => if c == x then rest else cs
  | [] => cs

/-- Regex fragment `\w+` (greedy). -/
def eatWordPlus (cs : List Char) : Option (List Char) :=
  match cs with
  | c :: rest => if isWordCh c then some (rest.dropWhile isWordCh) else none
  | [] => none

/-- Regex fragment `\S+` (greedy). -/
def eatNonSpacePlus (cs : List Char) : Option (List Char) :=
  match cs with
  | c :: rest =>
    if isPySpace c then none else some (rest.dropWhile (fun d => !isPySpace d))
  | [] => none

/-! ### Embedding of `ProjectMatcher._normalize`

The Python pipeline, in source order:
1. `name.replace("–", "-").replace("—", "-")`
2. `LETTER_PREFIX_PATTERN.sub("", name)` with `^[A-Z]\.\s+`
3. `PREFIX_PATTERN.sub("", name)` with
   `^(?:VHOP\s*\d*|VHGG|VHSC)\s*[-–—]\s*`, IGNORECASE
4. `PHASE_PATTERN.sub("", name)` (six alternatives, IGNORECASE)
5. `re.sub(r"\([^)]*\)", "", name)`
6. `re.sub(r"\s*[-–—]\s*$", "", name)`
7. `re.sub(r"\s+", " ", name).strip().lower()`
8. `re.sub(r"[^\w\s-]", "", name)`
-/

/-- Step 1: unify Unicode en/em dashes to the ASCII hyphen. -/
def dashReplace (cs : List Char) : List Char :=
  cs.map (fun c => if c == '–' || c == '—' then '-' else c)

/-- Step 2: strip a single-letter enumeration label `^[A-Z]\.\s+`
(anchored, so the substitution fires at most once). -/
def stripLetterLabel (cs : List Char) : List Char :=
  match cs with
  | c :: '.' :: rest =>
    if isAsciiUpper c then
      match eatWsPlus rest with
      | some r => r
      | none => cs
    else cs
  | _ => cs

/-- Step 3: strip the internal code marks `^(?:VHOP\s*\d*|VHGG|VHSC)\s*[-–—]\s*`
(anchored, IGNORECASE, fires at most once).  The three alternatives are
tried in pattern order; none of them can match where another did, so
greedy matching is faithful. -/
def stripCodeMark (cs : List Char) : List Char :=
  let head :=
    match eatCaseless ['v', 'h', 'o', 'p'] cs with
    | some r => some (eatDigitsStar (eatWsStar r))
    | none =>
      match eatCaseless ['v', 'h', 'g', 'g'] cs with
      | some r => some r
      | none => eatCaseless ['v', 'h', 's', 'c'] cs
  match head with
  | some r =>
    match eatDash (eatWsStar r) with
    | some r2 => eatWsStar r2
    | none => cs
  | none => cs

/-- Shared core of `PHASE_PATTERN` alternatives 1–3:
`\s*[-–—]\s*\(?P\d+\)?`. -/
def eatDashPhase (cs : List Char) : Option (List Char) :=
  match eatDash (eatWsStar cs) with
  | none => none
  | some r1 =>
    match eatCaseless ['p'] (eatOptChar '(' (eatWsStar r1)) with
    | none => none
    | some r2 =>
      match eatDigitsPlus r2 with
      | none => none
      | some r3 => some (eatOptChar ')' r3)

/-- `PHASE_PATTERN` alternative 1:
`\s*[-–—]\s*\(?P\d+\)?\s+(?:Block|Tower)\s+\w[\w&]*`. -/
def phaseAlt1 (cs : List Char) : Option (List Char) :=
  match eatDashPhase cs with
  | none => none
  | some r1 =>
    match eatWsPlus r1 with
    | none => none
    | some r2 =>
      let bt :=
        match eatCaseless ['b', 'l', 'o', 'c', 'k'] r2 with
        | some r => some r
        | none => eatCaseless ['t', 'o', 'w', 'e', 'r'] r2
      match bt with
      | none => none
      | some r3 =>
        match eatWsPlus r3 with
        | none => none
        | some r4 =>
          match r4 with
          | c :: rest =>
            if isWordCh c then
              some (rest.dropWhile (fun d => isWordCh d || d == '&'))
            else none
          | [] => none

/-- `PHASE_PATTERN` alternative 2: `\s*[-–—]\s*\(?P\d+\)?\s+\S+`. -/
def phaseAlt2 (cs : List Char) : Option (List Char) :=
  match eatDashPhase cs with
  | none => none
  | some r1 =>
    match eatWsPlus r1 with
    | none => none
    | some r2 => eatNonSpacePlus r2

/-- `PHASE_PATTERN` alternative 4: `\s*\(P\d+\)\s*`. -/
def phaseAlt4 (cs : List Char) : Option (List Char) :=
  match eatLit ['('] (eatWsStar cs) with
  | none => none
  | some r1 =>
    match eatCaseless ['p'] r1 with
    | none => none
    | some r2 =>
      match eatDigitsPlus r2 with
      | none => none
      | some r3 =>
        match eatLit [')'] r3 with
        | none => none
        | some r4 => some (eatWsStar r4)

/-- `PHASE_PATTERN` alternative 5: `\s*Phase\s+\d+`. -/
def phaseAlt5 (cs : List Char) : Option (List Char) :=
  match eatCaseless ['p', 'h', 'a', 's', 'e'] (eatWsStar cs) with
  | none => none
  | some r1 =>
    match eatWsPlus r1 with
    | none => none
    | some r2 => eatDigitsPlus r2

/-- `PHASE_PATTERN` alternative 6: `\s*[-–—]\s*Block\s+\w+`. -/
def phaseAlt6 (cs : List Char) : Option (List Char) :=
  match eatDash (eatWsStar cs) with
  | none => none
  | some r1 =>
    match eatCaseless ['b', 'l', 'o', 'c', 'k'] (eatWsStar r1) with
    | none => none
    | some r2 =>
      match eatWsPlus r2 with
      | none => none
      | some r3 => eatWordPlus r3

/-- Try the `PHASE_PATTERN` alternatives at the current position, in the
order they appear in the pattern (Python picks the first alternative that
matches, not the longest). -/
def tryPhaseAt (cs : List Char) : Option (List Char) :=
  match phaseAlt1 cs with
  | some r => some r
  | none =>
    match phaseAlt2 cs with
    | some r => some r
    | none =>
      match eatDashPhase cs with
      | some r => some r
      | none =>
        match phaseAlt4 cs with
        | some r => some r
        | none =>
          match phaseAlt5 cs with
          | some r => some r
          | none => phaseAlt6 cs

/-- Step 4 driver: `PHASE_PATTERN.sub("", name)` — scan left to right,
deleting each match and resuming after it.  Every alternative consumes at
least one character, so a fuel of `cs.length` always suffices. -/
def phaseSubGo (fuel : Nat) (cs : List Char) : List Char :=
  match fuel, cs with
  | 0, rest => rest
  | _ + 1, [] => []
  | fuel + 1, c :: rest =>
    match tryPhaseAt (c :: rest) with
    | some r => phaseSubGo fuel r
    | none => c :: phaseSubGo fuel rest

def phaseSub (cs : List Char) : List Char :=
  phaseSubGo cs.length cs

/-- Step 5 driver: `re.sub(r"\([^)]*\)", "", name)`.  The state holds the
characters buffered (in reverse) since the currently open `(`; when the
matching `)` arrives the group is discarded, and an unclosed `(` is
emitted literally, exactly as the regex leaves it in place. -/
def parenGo (cs : List Char) (buf : Option (List Char)) : List Char :=
  match cs, buf with
  | [], none => []
  | [], some b => '(' :: b.reverse
  | c :: rest, none =>
    if c == '(' then parenGo rest (some [])
    else c :: parenGo rest none
  | c :: rest, some b =>
    if c == ')' then parenGo rest none
    else parenGo rest (some (c :: b))

def parenSub (cs : List Char) : List Char :=
  parenGo cs none

/-- Step 6: `re.sub(r"\s*[-–—]\s*$", "", name)` — remove one trailing
dash together with the whitespace around it. -/
def stripTrailDash (cs : List Char) : List Char :=
  let r := cs.reverse.dropWhile isPySpace
  match r with
  | c :: r2 =>
    if isDashCh c then (r2.dropWhile isPySpace).reverse else cs
  | [] => cs

/-- Step 7 (first half): `re.sub(r"\s+", " ", name)`. -/
def collapseWsGo (prev : Bool) (cs : List Char) : List Char :=
  match cs with
  | [] => []
  | c :: rest =>
    if isPySpace c then
      if prev then collapseWsGo true rest else ' ' :: collapseWsGo true rest
    else c :: collapseWsGo false rest

def collapseWs (cs : List Char) : List Char :=
  collapseWsGo false cs

/-- Step 7: collapse whitespace, strip, lowercase. -/
def collapseStripLower (cs : List Char) : List Char :=
  toLowerChars (pyStripChars (collapseWs cs))

/-- Step 8 keep-set: `[^\w\s-]` is removed, i.e. word characters,
whitespace and the ASCII hyphen are kept. -/
def keepCh (c : Char) : Bool :=
  isWordCh c || isPySpace c || c == '-'

def punctFilter (cs : List Char) : List Char :=
  cs.filter keepCh

/-- Embedding of `ProjectMatcher._normalize` (project_matcher.py lines
128–147): the eight steps in source order. -/
def normChars (cs : List Char) : List Char :=
  punctFilter (collapseStripLower (stripTrailDash (parenSub (phaseSub
    (stripCodeMark (stripLetterLabel (dashReplace cs)))))))

def pyNormalize (s : String) : String :=
  ⟨normChars s.data⟩

/-! ### Embedding of `ProjectMatcher.is_junk_name`

The curated junk-name set `_JUNK_NAMES` and the structural patterns
`_JUNK_PATTERNS` from project_matcher.py lines 12–61.  The patterns are
applied with `pat.match(cleaned)`, i.e. anchored at the start of the
(stripped) string. -/

def junkNames : List String :=
  ["on-sales projects", "on sales projects", "new launch projects",
   "future launch projects", "completed projects", "zone i", "zone ii",
   "zone iii", "zone iv", "i. zone i", "ii. zone ii", "iii. zone iii",
   "ii. on-sales projects", "iii. zone i", "remarkable",
   "remarable projects", "analyzed projects",
   "project name", "unit type", "location", "developer", "grade",
   "price", "status", "block", "type", "area", "items", "level",
   "description", "development", "facilities", "operation",
   "total units", "sales point", "sales status", "apartment",
   "unit finishing", "unit layout", "unit ratio", "merging",
   "ho chi minh city", "hanoi", "binh duong", "hcmc", "ha noi",
   "da nang", "hai phong", "ha long", "dong anh", "tan uyen",
   "penthouse", "duplex", "shophouse", "landed house", "block b2",
   "merging information", "market situation", "n/a",
   "master plan", "master plan & circulation", "typical floor",
   "typical floor plan", "typical unit layout", "project map",
   "project evaluation", "payment schedule", "public facility",
   "key characteristics", "co-operation strategy", "for customer",
   "highlighted features", "open-space concept with dual balcony",
   "section & product distribution", "section & product type distribution",
   "h-i", "h-ii", "m-i", "m-ii", "m-iii", "a-i", "a-ii", "sl", "l",
   "i & ii", "hawaii", "rr2.5", "vhop1", "symlife",
   "dong nai river", "saigon river",
   "complex development timeline (2018-2024)", "lideco"]

/-- Character class `[IVX]` under IGNORECASE. -/
def isRomanCh (c : Char) : Bool :=
  let l := asciiLower c
  l == 'i' || l == 'v' || l == 'x'

/-- Junk pattern `^[IVX]+\.\s` (IGNORECASE). -/
def junkRoman (cs : List Char) : Bool :=
  match cs with
  | c :: rest =>
    if isRomanCh c then
      match eatLit ['.'] (rest.dropWhile isRomanCh) with
      | some r => (eatWsPlus r).isSome
      | none => false
    else false
  | [] => false

/-- Junk pattern `^\d+\.\d+\s` — numbered section codes like "02.01 ". -/
def junkNumbered (cs : List Char) : Bool :=
  match eatDigitsPlus cs with
  | some r1 =>
    match eatLit ['.'] r1 with
    | some r2 =>
      match eatDigitsPlus r2 with
      | some r3 => (eatWsPlus r3).isSome
      | none => false
    | none => false
  | none => false

/-- Junk pattern `^ANALYZED\s+PROJECTS\s*\(` (IGNORECASE). -/
def junkAnalyzed (cs : List Char) : Bool :=
  match eatCaseless ['a', 'n', 'a', 'l', 'y', 'z', 'e', 'd'] cs with
  | some r1 =>
    match eatWsPlus r1 with
    | some r2 =>
      match eatCaseless ['p', 'r', 'o', 'j', 'e', 'c', 't', 's'] r2 with
      | some r3 => (eatLit ['('] (eatWsStar r3)).isSome
      | none => false
    | none => false
  | none => false

/-- Junk pattern `^C\s+O\s+N\s+F\s+I` (IGNORECASE) — spaced-out
"CONFIDENTIAL". -/
def junkSpacedConf (cs : List Char) : Bool :=
  match eatCaseless ['c'] cs with
  | some r1 =>
    match eatWsPlus r1 with
    | some r2 =>
      match eatCaseless ['o'] r2 with
      | some r3 =>
        match eatWsPlus r3 with
        | some r4 =>
          match eatCaseless ['n'] r4 with
          | some r5 =>
            match eatWsPlus r5 with
            | some r6 =>
              match eatCaseless ['f'] r6 with
              | some r7 =>
                match eatWsPlus r7 with
                | some r8 => (eatCaseless ['i'] r8).isSome
                | none => false
              | none => false
            | none => false
          | none => false
        | none => false
      | none => false
    | none => false
  | none => false

/-- Exactly `n` digits (regex `\d{n}`). -/
def eatDigitsExact (n : Nat) (cs : List Char) : Option (List Char) :=
  match n, cs with
  | 0, rest => some rest
  | _ + 1, [] => none
  | k + 1, c :: rest => if isAsciiDigit c then eatDigitsExact k rest else none

/-- Junk pattern `TIMELINE\s*\(\d{4}` (IGNORECASE), applied with
`re.match`, hence anchored at the start. -/
def junkTimeline (cs : List Char) : Bool :=
  match eatCaseless ['t', 'i', 'm', 'e', 'l', 'i', 'n', 'e'] cs with
  | some r1 =>
    match eatLit ['('] (eatWsStar r1) with
    | some r2 => (eatDigitsExact 4 r2).isSome
    | none => false
  | none => false

/-- Junk pattern `^OVERALL\s+IN\s+\d{4}` (IGNORECASE). -/
def junkOverall (cs : List Char) : Bool :=
  match eatCaseless ['o', 'v', 'e', 'r', 'a', 'l', 'l'] cs with
  | some r1 =>
    match eatWsPlus r1 with
    | some r2 =>
      match eatCaseless ['i', 'n'] r2 with
      | some r3 =>
        match eatWsPlus r3 with
        | some r4 => (eatDigitsExact 4 r4).isSome
        | none => false
      | none => false
    | none => false
  | none => false

/-- Junk pattern `^HIGHLIGHTED\s+FEATURES\s+IN` (IGNORECASE). -/
def junkHighlighted (cs : List Char) : Bool :=
  match eatCaseless ['h', 'i', 'g', 'h', 'l', 'i', 'g', 'h', 't', 'e', 'd'] cs with
  | some r1 =>
    match eatWsPlus r1 with
    | some r2 =>
      match eatCaseless ['f', 'e', 'a', 't', 'u', 'r', 'e', 's'] r2 with
      | some r3 =>
        match eatWsPlus r3 with
        | some r4 => (eatCaseless ['i', 'n'] r4).isSome
        | none => false
      | none => false
    | none => false
  | none => false

/-- Junk pattern `^(?:LOW|HIGH)-RISE\s*\(` (IGNORECASE). -/
def junkRise (cs : List Char) : Bool :=
  let head :=
    match eatCaseless ['l', 'o', 'w'] cs with
    | some r => some r
    | none => eatCaseless ['h', 'i', 'g', 'h'] cs
  match head with
  | some r1 =>
    match eatCaseless ['-', 'r', 'i', 's', 'e'] r1 with
    | some r2 => (eatLit ['('] (eatWsStar r2)).isSome
    | none => false
  | none => false

/-- Junk pattern `^BLOCK\s+[A-Z]\d` (IGNORECASE; the class `[A-Z]` also
matches lowercase under IGNORECASE). -/
def junkBlockCode (cs : List Char) : Bool :=
  match eatCaseless ['b', 'l', 'o', 'c', 'k'] cs with
  | some r1 =>
    match eatWsPlus r1 with
    | some r2 =>
      match r2 with
      | c :: d :: _ => (isAsciiUpper c || isAsciiLower c) && isAsciiDigit d
      | _ => false
    | none => false
  | none => false

/-- Junk pattern `^TOWER\s+\w+$` (IGNORECASE).  The input is already
stripped, so `$` is the end of the string. -/
def junkTowerWord (cs : List Char) : Bool :=
  match eatCaseless ['t', 'o', 'w', 'e', 'r'] cs with
  | some r1 =>
    match eatWsPlus r1 with
    | some r2 =>
      match eatWordPlus r2 with
      | some r3 => r3.isEmpty
      | none => false
    | none => false
  | none => false

/-- Junk pattern `^WONDERFUL\s+PARK$` (IGNORECASE). -/
def junkWonderful (cs : List Char) : Bool :=
  match eatCaseless ['w', 'o', 'n', 'd', 'e', 'r', 'f', 'u', 'l'] cs with
  | some r1 =>
    match eatWsPlus r1 with
    | some r2 =>
      match eatCaseless ['p', 'a', 'r', 'k'] r2 with
      | some r3 => r3.isEmpty
      | none => false
    | none => false
  | none => false

/-- Junk pattern `DEVELOPMENT\s+TIMELINE` (IGNORECASE), applied with
`re.match`, hence anchored at the start (a prefix match, no `$`). -/
def junkDevTimeline (cs : List Char) : Bool :=
  match eatCaseless ['d', 'e', 'v', 'e', 'l', 'o', 'p', 'm', 'e', 'n', 't'] cs with
  | some r1 =>
    match eatWsPlus r1 with
    | some r2 =>
      (eatCaseless ['t', 'i', 'm', 'e', 'l', 'i', 'n', 'e'] r2).isSome
    | none => false
  | none => false

/-- All of `_JUNK_PATTERNS`, in source order. -/
def junkPatternHit (cs : List Char) : Bool :=
  junkRoman cs || junkNumbered cs || junkAnalyzed cs || junkSpacedConf cs ||
  junkTimeline cs || junkOverall cs || junkHighlighted cs || junkRise cs ||
  junkBlockCode cs || junkTowerWord cs || junkWonderful cs || junkDevTimeline cs

/-- Embedding of `ProjectMatcher.is_junk_name` (lines 114–126). -/
def isJunkName (name : String) : Bool :=
  let cleaned := pyStrip name
  if cleaned.data.isEmpty || cleaned.data.length < 3 then true
  else if junkNames.contains (toLowerStr cleaned) then true
  else junkPatternHit cleaned.data

/-! ### Half-even rounding (Python `round(x, 2)` over the `ℚ` model) -/

/-- Round to the nearest integer, ties to the even integer (Python's
`round`). -/
def halfEven (q : ℚ) : ℤ :=
  if q - ⌊q⌋ < 1/2 then ⌊q⌋
  else if (1 : ℚ)/2 < q - ⌊q⌋ then ⌊q⌋ + 1
  else if ⌊q⌋ % 2 = 0 then ⌊q⌋ else ⌊q⌋ + 1

/-- Python `round(x, 2)` in the `ℚ` model. -/
def round2 (q : ℚ) : ℚ :=
  (halfEven (100 * q) : ℚ) / 100

/-! ### Embedding of `ProjectMatcher.match` and its state

`_load_projects` snapshots all projects into two Python dicts:
`_cache : normalized_name -> (id, name)` and
`_name_to_id : lowercase name -> id`.  Dicts are modelled as association
lists with Python's update semantics (an existing key keeps its position,
a new key is appended), and dict iteration order is list order. -/

structure Project where
  id : Nat
  name : String
deriving DecidableEq, Repr

/-- Python dict update: replace in place or append. -/
def dictInsert (d : List (String × α)) (k : String) (v : α) :
    List (String × α) :=
  if d.any (fun e => e.1 == k) then
    d.map (fun e => if e.1 == k then (k, v) else e)
  else d ++ [(k, v)]

/-- Python `dict.get`. -/
def dictFind? (d : List (String × α)) (k : String) : Option α :=
  (d.find? (fun e => e.1 == k)).map (fun e => e.2)

/-- The `_cache` built by `_load_projects`: normalized name ->
(project id, original name). -/
def buildCache (ps : List Project) : List (String × Nat × String) :=
  ps.foldl (fun d p => dictInsert d (pyNormalize p.name) (p.id, p.name)) []

/-- The `_name_to_id` map built by `_load_projects`. -/
def buildNameToId (ps : List Project) : List (String × Nat) :=
  ps.foldl (fun d p => dictInsert d (toLowerStr p.name) p.id) []

/-- Inner loop of `_try_alias` over the alias table for one candidate
string: on a hit whose canonical name is unknown, scanning continues. -/
def aliasScanKeys (aliases : List (String × String))
    (nameToId : List (String × Nat)) (cand : String) : Option Nat :=
  match aliases with
  | [] => none
  | (ak, canonical) :: rest =>
    if toLowerStr cand == toLowerStr ak || pyNormalize ak == pyNormalize cand then
      match dictFind? nameToId (toLowerStr canonical) with
      | some pid => some pid
      | none => aliasScanKeys rest nameToId cand
    else aliasScanKeys rest nameToId cand

/-- Outer loop of `_try_alias` over the candidate forms. -/
def aliasScanCands (cands : List String) (aliases : List (String × String))
    (nameToId : List (String × Nat)) : Option Nat :=
  match cands with
  | [] => none
  | c :: rest =>
    match aliasScanKeys aliases nameToId c with
    | some pid => some pid
    | none => aliasScanCands rest aliases nameToId

/-- Embedding of `ProjectMatcher._try_alias` (lines 195–211); returns the
project id on success (the caller pairs it with confidence 0.95). -/
def tryAlias (aliases : List (String × String))
    (nameToId : List (String × Nat)) (extracted : String) : Option Nat :=
  if aliases.isEmpty then none
  else aliasScanCands [pyStrip extracted, pyNormalize extracted] aliases nameToId

/-- Python substring test `needle in hay`. -/
def infixOf (needle hay : List Char) : Bool :=
  match hay with
  | [] => needle.isEmpty
  | _ :: t => needle.isPrefixOf hay || infixOf needle t

/-- One step of the tier-4 substring loop (lines 180–188).  The
accumulator holds `(best_len, best_match)`. -/
def tier4Step (lower : String) (acc : Nat × Option (Nat × ℚ))
    (e : String × Nat × String) : Nat × Option (Nat × ℚ) :=
  let dbLower := toLowerStr e.2.2
  if infixOf dbLower.data lower.data || infixOf lower.data dbLower.data then
    let matchLen := min dbLower.data.length lower.data.length
    if acc.1 < matchLen then
      let ratio : ℚ :=
        ((min dbLower.data.length lower.data.length : ℕ) : ℚ) /
          ((max dbLower.data.length lower.data.length : ℕ) : ℚ)
      (matchLen, some (e.2.1, round2 (1/2 + 3/10 * ratio)))
    else acc
  else acc

/-- Embedding of `ProjectMatcher.match` (lines 149–193) over an explicit
matcher state. -/
def matcherMatch (cache : List (String × Nat × String))
    (nameToId : List (String × Nat)) (aliases : List (String × String))
    (extracted : String) : Option Nat × ℚ :=
  if extracted == "" then (none, 0)
  else if isJunkName extracted then (none, 0)
  else
    let lower := toLowerStr (pyStrip extracted)
    match cache.find? (fun e => toLowerStr e.2.2 == lower) with
    | some e => (some e.2.1, 1)
    | none =>
      match tryAlias aliases nameToId extracted with
      | some pid => (some pid, 95/100)
      | none =>
        match dictFind? cache (pyNormalize extracted) with
        | some v => (some v.1, 9/10)
        | none =>
          match (cache.foldl (tier4Step lower) (0, none)).2 with
          | some bm => (some bm.1, bm.2)
          | none => (none, 0)

/-- `ProjectMatcher` constructed from a project table, as
`__init__`/`_load_projects` do. -/
def matchProjects (ps : List Project) (aliases : List (String × String))
    (extracted : String) : Option Nat × ℚ :=
  matcherMatch (buildCache ps) (buildNameToId ps) aliases extracted

/-! ### Embedding of `extract_absorption` (text_parser.py lines 261–277)

`ABSORPTION_PATTERN` is
`Sold\s+(?:out|(\d+\.?\d*)\s*%\s*\((\d[\d,]*)\s*/\s*(\d[\d,]*)\s*units?\))`
(IGNORECASE), used with `re.search`; the fallback is
`re.search(r"Sold\s+out|100\s*%", text, re.IGNORECASE)`. -/

structure Absorption where
  ratePct : ℚ
  soldUnits : Option Nat
  totalUnits : Option Nat
deriving DecidableEq, Repr

/-- Numeric value of a digit list. -/
def digitsToNat (ds : List Char) : Nat :=
  ds.foldl (fun n c => 10 * n + (c.toNat - '0'.toNat)) 0

/-- Python `float` applied to a `\d+\.?\d*` capture: integer digits plus
an optional fractional part, modelled exactly in `ℚ`. -/
def rateToRat (ip fp : List Char) : ℚ :=
  (digitsToNat ip : ℚ) + (digitsToNat fp : ℚ) / (10 ^ fp.length : ℚ)

/-- Python `int(g.replace(",", ""))` on a `\d[\d,]*` capture. -/
def unitsToNat (ds : List Char) : Nat :=
  digitsToNat (ds.filter (fun c => c != ','))

/-- Capture group `\d+\.?\d*` (greedy): returns the integer digits, the
fraction digits, and the rest. -/
def eatRateNum (cs : List Char) : Option (List Char × List Char × List Char) :=
  match cs with
  | c :: rest =>
    if isAsciiDigit c then
      let ip := c :: rest.takeWhile isAsciiDigit
      let r1 := rest.dropWhile isAsciiDigit
      match r1 with
      | '.' :: r2 => some (ip, r2.takeWhile isAsciiDigit, r2.dropWhile isAsciiDigit)
      | _ => some (ip, [], r1)
    else none
  | [] => none

/-- Capture group `\d[\d,]*` (greedy): returns the captured characters
and the rest. -/
def eatUnitsNum (cs : List Char) : Option (List Char × List Char) :=
  match cs with
  | c :: rest =>
    if isAsciiDigit c then
      some (c :: rest.takeWhile (fun d => isAsciiDigit d || d == ','),
            rest.dropWhile (fun d => isAsciiDigit d || d == ','))
    else none
  | [] => none

/-- The numeric alternative of `ABSORPTION_PATTERN` after `Sold\s+`:
`(\d+\.?\d*)\s*%\s*\((\d[\d,]*)\s*/\s*(\d[\d,]*)\s*units?\)`. -/
def absorbNumericTail (cs : List Char) : Option (ℚ × Nat × Nat) :=
  match eatRateNum cs with
  | none => none
  | some (ip, fp, r1) =>
    match eatLit ['%'] (eatWsStar r1) with
    | none => none
    | some r2 =>
      match eatLit ['('] (eatWsStar r2) with
      | none => none
      | some r3 =>
        match eatUnitsNum r3 with
        | none => none
        | some (sold, r4) =>
          match eatLit ['/'] (eatWsStar r4) with
          | none => none
          | some r5 =>
            match eatUnitsNum (eatWsStar r5) with
            | none => none
            | some (total, r6) =>
              match eatCaseless ['u', 'n', 'i', 't'] (eatWsStar r6) with
              | none => none
              | some r7 =>
                let r8 :=
                  match eatCaseless ['s'] r7 with
                  | some r => r
                  | none => r7
                if (eatLit [')'] r8).isSome then
                  some (rateToRat ip fp, unitsToNat sold, unitsToNat total)
                else none

/-- `ABSORPTION_PATTERN` tried at one position.  `some none` is a hit on
the `out` alternative (all capture groups empty); `some (some v)` is a hit
on the numeric alternative.  Python tries `out` first. -/
def absorbAt (cs : List Char) : Option (Option (ℚ × Nat × Nat)) :=
  match eatCaseless ['s', 'o', 'l', 'd'] cs with
  | none => none
  | some r1 =>
    match eatWsPlus r1 with
    | none => none
    | some r2 =>
      if (eatCaseless ['o', 'u', 't'] r2).isSome then some none
      else
        match absorbNumericTail r2 with
        | some v => some (some v)
        | none => none

/-- `re.search` driver for `ABSORPTION_PATTERN`: leftmost position wins. -/
def absorbSearch (cs : List Char) : Option (Option (ℚ × Nat × Nat)) :=
  match cs with
  | [] => none
  | _ :: t =>
    match absorbAt cs with
    | some r => some r
    | none => absorbSearch t

/-- One position of the fallback pattern `Sold\s+out|100\s*%`. -/
def soldOutAt (cs : List Char) : Bool :=
  (match eatCaseless ['s', 'o', 'l', 'd'] cs with
   | some r1 =>
     match eatWsPlus r1 with
     | some r2 => (eatCaseless ['o', 'u', 't'] r2).isSome
     | none => false
   | none => false) ||
  (match eatLit ['1', '0', '0'] cs with
   | some r1 => (eatLit ['%'] (eatWsStar r1)).isSome
   | none => false)

/-- `re.search` driver for the fallback pattern. -/
def soldOutSearch (cs : List Char) : Bool :=
  match cs with
  | [] => false
  | _ :: t => soldOutAt cs || soldOutSearch t

/-- Embedding of `extract_absorption` (lines 261–277). -/
def extractAbsorption (s : String) : Option Absorption :=
  match absorbSearch s.data with
  | some (some (rate, sold, total)) => some ⟨rate, some sold, some total⟩
  | some none => some ⟨100, none, none⟩
  | none =>
    if soldOutSearch s.data then some ⟨100, none, none⟩ else none

/-! ### Embedding of `BaseExtractor.split_by_projects`
(base_extractor.py lines 41–61)

A compiled header pattern is abstracted by its `finditer` result: the list
of matches, each carrying its span and the captured groups.  `number` is
`None` when the pattern has no `number` group (or the group did not
participate). -/

structure PatMatch where
  mStart : Nat
  mEnd : Nat
  name : String
  number : Option String
deriving DecidableEq, Repr

structure PSection where
  number : String
  name : String
  content : String
deriving DecidableEq, Repr

/-- Python slice `text[a:b]` (with `a ≤ b` in all uses here). -/
def pySlice (text : List Char) (a b : Nat) : List Char :=
  (text.drop a).take (b - a)

/-- The `for i, match in enumerate(matches)` loop body of
`split_by_projects`: content runs from this match's end to the next
match's start, or to the end of the text. -/
def splitGo (text : List Char) (i : Nat) : List PatMatch → List PSection
  | [] => []
  | m :: rest =>
    let e :=
      match rest with
      | m2 :: _ => m2.mStart
      | [] => text.length
    { number := m.number.getD (toString (i + 1)),
      name := pyStrip m.name,
      content := ⟨pyStripChars (pySlice text m.mEnd e)⟩ } :: splitGo text (i + 1) rest

/-- Embedding of `split_by_projects`, given the header pattern's matches. -/
def splitByProjects (text : String) (ms : List PatMatch) : List PSection :=
  splitGo text.data 0 ms

/-! ### Embedding of the seeder store
(base_seeder.py lines 55–64 and 70–98)

The session plus one entity table is modelled as a list of rows in
insertion order.  `filter_by(**kwargs).first()` is the first row whose
attributes carry every keyword value; `model_class(**params)` stores the
Python merge `{**kwargs, **defaults}`; `flush` assigns the next surrogate
id.  `DataLineage` rows keep every field except the wall-clock
`extracted_at` timestamp, which has no counterpart in a pure model. -/

structure Row (V : Type) where
  rid : Nat
  attrs : List (String × V)
deriving DecidableEq, Repr

structure Lineage where
  tableName : String
  recordId : Nat
  sourceReportId : Nat
  pageNumber : Option Nat
  confidence : ℚ
deriving DecidableEq, Repr

structure Store (V : Type) where
  entities : List (Row V)
  lineage : List Lineage
  nextId : Nat
deriving DecidableEq, Repr

/-- `filter_by(**kwargs)` row predicate. -/
def rowMatches [DecidableEq V] (kwargs : List (String × V)) (r : Row V) : Bool :=
  kwargs.all (fun kv => dictFind? r.attrs kv.1 == some kv.2)

/-- Python `{**kwargs, **defaults}`: keyword pairs inserted first, then
the defaults, with dict update semantics (`defaults` wins on a shared
key). -/
def mergeParams (kwargs defaults : List (String × V)) : List (String × V) :=
  defaults.foldl (fun d kv => dictInsert d kv.1 kv.2)
    (kwargs.foldl (fun d kv => dictInsert d kv.1 kv.2) [])

/-- Embedding of `BaseSeeder._get_or_create` (lines 55–64). -/
def getOrCreate [DecidableEq V] (s : Store V)
    (defaults kwargs : List (String × V)) : Row V × Bool × Store V :=
  match s.entities.find? (rowMatches kwargs) with
  | some r => (r, false, s)
  | none =>
    let r : Row V := ⟨s.nextId, mergeParams kwargs defaults⟩
    (r, true,
      { s with entities := s.entities ++ [r], nextId := s.nextId + 1 })

/-- Embedding of `LineageAwareSeeder._get_or_create_with_lineage`
(lines 70–98): on creation, exactly one `DataLineage` row is appended. -/
def getOrCreateWithLineage [DecidableEq V] (s : Store V) (tableName : String)
    (sourceReportId : Nat) (pageNumber : Option Nat) (confidence : ℚ)
    (defaults kwargs : List (String × V)) : Row V × Bool × Store V :=
  let res := getOrCreate s defaults kwargs
  if res.2.1 then
    (res.1, true,
      { res.2.2 with
        lineage := res.2.2.lineage ++
          [⟨tableName, res.1.rid, sourceReportId, pageNumber, confidence⟩] })
  else (res.1, false, res.2.2)

/-! ### Embedding of the factor-category detection
(price_pass_extractor.py lines 21–30, 355–410)

`_infer_factors_from_description` applies `re.search(kw, text_lower)` for
each keyword.  Every keyword in `keyword_map` is a regex without
metacharacters — a plain substring — except `handover.*year`, which is
modelled as its two literals separated by a newline-free gap. -/

def increaseFactorCols : List String :=
  ["location", "supply_shortage", "construction",
   "urban_planning", "competitive_price", "neighborhood", "other"]

def decreaseFactorCols : List String :=
  ["old_project", "legal", "bank_loan",
   "oversupply", "management", "other"]

/-- A keyword pattern: a literal, or `a.*b` (gap may not cross a
newline). -/
inductive KwPat where
  | lit (s : String)
  | gap (a b : String)
deriving DecidableEq, Repr

/-- Scan for `b` without crossing a newline in the gap. -/
def gapAfter (b : List Char) : List Char → Bool
  | [] => false
  | c :: t =>
    if b.isPrefixOf (c :: t) then true
    else if c == '\n' then false
    else gapAfter b t

/-- Regex `a.*b` under `re.search` semantics (`.` does not match a
newline). -/
def gapSearch (a b : List Char) : List Char → Bool
  | [] => false
  | c :: t =>
    (a.isPrefixOf (c :: t) && gapAfter b ((c :: t).drop a.length)) || gapSearch a b t

/-- Whether a keyword pattern hits anywhere in the text. -/
def kwMatch (p : KwPat) (text : List Char) : Bool :=
  match p with
  | .lit s => infixOf s.data text
  | .gap a b => gapSearch a.data b.data text

/-- The `keyword_map` of `_infer_factors_from_description`
(lines 390–402). -/
def keywordMap : List (String × List KwPat) :=
  [("location", [.lit "location", .lit "metro", .lit "cbd", .lit "riverside", .lit "near"]),
   ("supply_shortage", [.lit "supply shortage", .lit "shortage", .lit "not many", .lit "few"]),
   ("construction", [.lit "construction", .lit "bridge", .lit "road", .lit "infrastructure"]),
   ("urban_planning", [.lit "planning", .lit "urban", .lit "master plan"]),
   ("competitive_price", [.lit "competitive", .lit "price", .lit "cheaper", .lit "affordable"]),
   ("neighborhood", [.lit "neighborhood", .lit "facilities", .lit "amenities", .lit "park"]),
   ("old_project", [.lit "old", .gap "handover" "year", .lit "degraded"]),
   ("legal", [.lit "legal", .lit "pink book", .lit "license"]),
   ("bank_loan", [.lit "bank", .lit "loan", .lit "interest"]),
   ("oversupply", [.lit "oversupply", .lit "over supply"]),
   ("management", [.lit "management", .lit "operation", .lit "maintain"])]

/-- Embedding of `_infer_factors_from_description` (lines 384–410): a
column is emitted when it owns a keyword that hits `text.lower()`;
columns outside `keyword_map` never fire. -/
def inferFactors (text : String) (columns : List String) : List String :=
  let lower := toLowerStr text
  columns.filter (fun col =>
    match dictFind? keywordMap col with
    | some kws => kws.any (fun p => kwMatch p lower.data)
    | none => false)

/-- The checkmark glyph class `[üûö✓✔]` of `_detect_checked_factors`. -/
def isCheckGlyph (c : Char) : Bool :=
  c == 'ü' || c == 'û' || c == 'ö' || c == '✓' || c == '✔'

/-- Embedding of `_detect_checked_factors` (lines 355–382).  Note that
the Python code passes `checks_text` — the concatenated checkmark lines —
to `_infer_factors_from_description`, not the row description.  The
`columns.take 1` fallback models `[columns[0]]`; for the empty column
list (never passed by the extractor) Python would raise `IndexError`. -/
def detectCheckedFactors (checksText : String) (columns : List String) :
    List String :=
  let marks := checksText.data.filter isCheckGlyph
  if marks.length == 0 then inferFactors checksText columns
  else if marks.length == 1 then
    let inferred := inferFactors checksText columns
    if inferred.isEmpty then columns.take 1 else inferred
  else
    let checked := columns.take marks.length
    if checked.isEmpty then columns.take 1 else checked

/-! ### Embedding of the per-city part of `_extract_segments`
(price_pass_extractor.py lines 492–507 and 570–639)

The function receives the nonempty stripped lines of the section text
(line 539) and produces one record per city and grade segment. -/

def segmentOrder : List String :=
  ["affordable", "mid-end", "high-end", "luxury"]

def gradeMapL : List (String × String) :=
  [("affordable", "A-I"), ("mid-end", "M-I"), ("high-end", "H-I"),
   ("luxury", "L"), ("super-luxury", "SL")]

def priceRangesL : List (String × String) :=
  [("affordable", "~ 999 USD/m2"), ("mid-end", "1,000 ~ 1,999 USD/m2"),
   ("high-end", "2,000 ~ 3,999 USD/m2"), ("luxury", "4,000 USD/m2 ~")]

def cityNamesMap : List (String × String) :=
  [("HCMC", "Ho Chi Minh City"), ("HO CHI MINH", "Ho Chi Minh City"),
   ("BINH DUONG", "Binh Duong"), ("HA LONG", "Ha Long"),
   ("HAI PHONG", "Hai Phong"), ("DA NANG", "Da Nang"), ("HANOI", "Hanoi")]

structure SegRecord where
  city : String
  gradeCode : String
  segment : String
  proportionPct : ℚ
  priceRange : Option String
  confidence : ℚ
deriving DecidableEq, Repr

/-- The city-name recognition of lines 585–589: exact key or a short
superstring of a key. -/
def matchCity (lineUpper : String) : Option String :=
  (cityNamesMap.find? (fun kv =>
    kv.1 == lineUpper ||
    (infixOf kv.1.data lineUpper.data &&
      decide (lineUpper.data.length < kv.1.data.length + 5)))).map (fun kv => kv.2)

/-- The percentage line `^(\d+)\s*%$` of line 596. -/
def parsePctLine (line : String) : Option Nat :=
  match line.data with
  | c :: rest =>
    if isAsciiDigit c then
      let ds := c :: rest.takeWhile isAsciiDigit
      let r1 := eatWsStar (rest.dropWhile isAsciiDigit)
      match r1 with
      | ['%'] => some (digitsToNat ds)
      | _ => none
    else none
  | [] => none

/-- The commentary stop `^(In |HCMC|Source|01\.)` of line 607. -/
def isCommentary (line : String) : Bool :=
  "In ".data.isPrefixOf line.data || "HCMC".data.isPrefixOf line.data ||
  "Source".data.isPrefixOf line.data || "01.".data.isPrefixOf line.data

def toUpperStr (s : String) : String :=
  ⟨toUpperChars s.data⟩

/-- The collection loop of lines 575–608: gather city names until the
first value line, then percentages (`some n`) and literal dashes
(`none`), stopping at a commentary line once past the city names. -/
def collectSegGo (lines : List String)
    (cities : List String) (pcts : List (Option ℚ)) (past : Bool) :
    List String × List (Option ℚ) :=
  match lines with
  | [] => (cities, pcts)
  | line :: rest =>
    let lineUpper := toUpperStr (pyStrip line)
    if lineUpper.data.isEmpty then collectSegGo rest cities pcts past
    else
      match matchCity lineUpper, past with
      | some city, false => collectSegGo rest (cities ++ [city]) pcts past
      | _, _ =>
        match parsePctLine line with
        | some n => collectSegGo rest cities (pcts ++ [some (n : ℚ)]) true
        | none =>
          if pyStrip line == "-" then
            collectSegGo rest cities (pcts ++ [none]) true
          else if past && isCommentary line then (cities, pcts)
          else collectSegGo rest cities pcts past

/-- One record of lines 629–637; a missing value (`none`) is written out
as `0.0`. -/
def segRecordOf (city : String) (segment : String) (v : Option ℚ) : SegRecord :=
  { city := city,
    gradeCode := (dictFind? gradeMapL segment).getD "",
    segment := segment,
    proportionPct := v.getD 0,
    priceRange := dictFind? priceRangesL segment,
    confidence := 3/4 }

/-- The assignment loop of lines 611–637: four values per city in
encounter order; fewer than three remaining values stops the loop, and a
partially filled group is padded with `none`. -/
def assignCities (cities : List String) (pcts : List (Option ℚ)) :
    List SegRecord :=
  match cities with
  | [] => []
  | city :: rest =>
    if pcts.length < 3 then []
    else
      let chunk := pcts.take 4
      let padded := chunk ++ List.replicate (4 - chunk.length) none
      (segmentOrder.zip padded).map (fun sv => segRecordOf city sv.1 sv.2) ++
        assignCities rest (pcts.drop 4)

/-- The per-city part of `_extract_segments` on the section's stripped
nonempty lines. -/
def extractSegmentsCityPart (lines : List String) : List SegRecord :=
  let cp := collectSegGo lines [] [] false
  if cp.1.isEmpty || cp.2.isEmpty then [] else assignCities cp.1 cp.2

/-! ### Derived definitions used by the theorem statements -/

/-- The tier-4 overlap ratio: shorter length over longer length. -/
def overlapRatio (a b : String) : ℚ :=
  ((min a.data.length b.data.length : ℕ) : ℚ) /
    ((max a.data.length b.data.length : ℕ) : ℚ)

/-- The tier-4 substring confidence `round(0.5 + 0.3 * ratio, 2)`. -/
def subConf (a b : String) : ℚ :=
  round2 (1/2 + 3/10 * overlapRatio a b)

/-! ### Concrete fixtures for witnesses and counterexamples -/

/-- A database whose only project carries the canonical name "Hawaii",
which also sits in the curated junk list. -/
def hawaiiProjects : List Project :=
  [⟨1, "Hawaii"⟩]

def c1DemoProjects : List Project :=
  [⟨1, "Masteri Thao Dien"⟩, ⟨2, "Vista Verde"⟩]

/-- A database whose only project has the one-letter name "q". -/
def qProjects : List Project :=
  [⟨1, "q"⟩]

/-- A 61-character junk-free input containing the name "q": overlap ratio
1/61, so the tier-4 confidence rounds down to exactly 0.50. -/
def longQ : String :=
  ⟨'q' :: List.replicate 60 'a'⟩

def happyProjects : List Project :=
  [⟨1, "Happy One Morri"⟩]

def happyInput : String :=
  "Happy One Morri – (P1) Block Tochi"

def c8DemoCache : List (String × Nat × String) :=
  [("noble crystal tay ho", 8, "Noble Crystal Tay Ho")]

def segDemoDash : List String :=
  ["BINH DUONG", "10 %", "-", "20 %", "30 %"]

def segDemoZero : List String :=
  ["BINH DUONG", "10 %", "0 %", "20 %", "30 %"]

def c2Store0 : Store String :=
  ⟨[], [], 0⟩

def c2Kwargs : List (String × String) :=
  [("name", "A")]

/-- Defaults that override the natural-key field `name`. -/
def c2BadDefaults : List (String × String) :=
  [("name", "B")]

/-- Defaults disjoint from the natural key. -/
def c2GoodDefaults : List (String × String) :=
  [("grade", "B")]

def demoSplitText : String :=
  "HEADER1 aaa bbb HEADER2 ccc"

def demoSplitMatches : List PatMatch :=
  [⟨0, 8, "H1", none⟩, ⟨16, 24, "H2", some "02"⟩]

end MRDev

/-! ## Theorems -/

namespace MRDev

/-! ### Generic helper lemmas -/

theorem mapFixed {f : Char → Char} :
    ∀ (l : List Char), (∀ c ∈ l, f c = c) → l.map f = l := by
  intro l h
  induction l with
  | nil => rfl
  | cons c t ih =>
    simp only [List.map_cons]
    rw [h c (List.mem_cons_self c t), ih (fun d hd => h d (List.mem_cons_of_mem c hd))]

theorem punctFilter_mem {c : Char} {cs : List Char} (h : c ∈ punctFilter cs) :
    keepCh c = true :=
  (List.mem_filter.mp h).2

theorem parenGo_id :
    ∀ (cs : List Char), (∀ c ∈ cs, (c == '(') = false) → parenGo cs none = cs := by
  intro cs h
  induction cs with
  | nil => rfl
  | cons c t ih =>
    simp only [parenGo]
    rw [h c (List.mem_cons_self c t)]
    simp only [Bool.false_eq_true, if_false]
    rw [ih (fun d hd => h d (List.mem_cons_of_mem c hd))]

theorem stripLetterLabel_id (cs : List Char) (h : ∀ c ∈ cs, keepCh c = true) :
    stripLetterLabel cs = cs := by
  match cs with
  | [] => rfl
  | [c] => rfl
  | c :: c2 :: t =>
    by_cases h2 : c2 = '.'
    · exfalso
      have := h c2 (List.mem_cons_of_mem c (List.mem_cons_self c2 t))
      rw [h2] at this
      exact absurd this (by decide)
    · show stripLetterLabel (c :: c2 :: t) = c :: c2 :: t
      unfold stripLetterLabel
      split
      · rename_i c' rest heq
        injection heq with ha hb
        injection hb with hb1 hb2
        exact absurd hb1 h2
      · rfl

/-! ### Helper lemmas on half-even rounding -/

theorem halfEven_ge_floor (q : ℚ) : ⌊q⌋ ≤ halfEven q := by
  unfold halfEven
  split_ifs <;> omega

theorem halfEven_le_floor_add_one (q : ℚ) : halfEven q ≤ ⌊q⌋ + 1 := by
  unfold halfEven
  split_ifs <;> omega

theorem halfEven_mono {x y : ℚ} (h : x ≤ y) : halfEven x ≤ halfEven y := by
  rcases lt_or_eq_of_le (Int.floor_le_floor h) with hf | hf
  · have h1 := halfEven_le_floor_add_one x
    have h2 := halfEven_ge_floor y
    omega
  · have hfrac : x - (⌊x⌋ : ℚ) ≤ y - (⌊x⌋ : ℚ) := by linarith
    unfold halfEven
    rw [← hf]
    split_ifs <;> first | omega | (exfalso; linarith)

/-- Evaluation rule for half-even rounding away from a tie. -/
theorem halfEven_eq_of {q : ℚ} {f : ℤ} (h1 : (f : ℚ) ≤ q)
    (h2 : q < (f : ℚ) + 1/2) : halfEven q = f := by
  have hfl : ⌊q⌋ = f := by
    rw [Int.floor_eq_iff]
    exact ⟨h1, by linarith⟩
  unfold halfEven
  rw [hfl]
  rw [if_pos (by linarith)]

/-- Evaluation rule for `round2` away from a tie. -/
theorem round2_eq_of {q : ℚ} {f : ℤ} (h1 : (f : ℚ) ≤ 100 * q)
    (h2 : 100 * q < (f : ℚ) + 1/2) : round2 q = (f : ℚ) / 100 := by
  unfold round2
  rw [halfEven_eq_of h1 h2]

theorem round2_mono {x y : ℚ} (h : x ≤ y) : round2 x ≤ round2 y := by
  unfold round2
  have h100 : (100 : ℚ) * x ≤ 100 * y := by linarith
  have := halfEven_mono h100
  have hcast : ((halfEven (100 * x) : ℚ)) ≤ ((halfEven (100 * y) : ℚ)) := by
    exact_mod_cast this
  linarith

/-- The rounded tier-4 confidence is an exact two-decimal value between
0.50 and 0.80 whenever the overlap is nonempty. -/
theorem subConf_mem (a b : String)
    (h : 0 < min a.data.length b.data.length) :
    ∃ k : ℕ, 50 ≤ k ∧ k ≤ 80 ∧ subConf a b = (k : ℚ) / 100 := by
  unfold subConf round2 overlapRatio
  set m := min a.data.length b.data.length with hm
  set M := max a.data.length b.data.length with hM
  have hmM : m ≤ M := le_trans (min_le_left _ _) (le_max_left _ _)
  have hM0 : 0 < M := lt_of_lt_of_le h hmM
  have hMq : (0 : ℚ) < (M : ℚ) := by exact_mod_cast hM0
  have hmq : (0 : ℚ) < (m : ℚ) := by exact_mod_cast h
  have hr0 : (0 : ℚ) < (m : ℚ) / (M : ℚ) := div_pos hmq hMq
  have hr1 : (m : ℚ) / (M : ℚ) ≤ 1 := by
    rw [div_le_one hMq]
    exact_mod_cast hmM
  set r := (m : ℚ) / (M : ℚ) with hr
  have hx : (100 : ℚ) * (1/2 + 3/10 * r) = 50 + 30 * r := by ring
  rw [hx]
  have hlow : (50 : ℚ) < 50 + 30 * r := by linarith
  have hhigh : 50 + 30 * r ≤ 80 := by linarith
  have hge : (50 : ℤ) ≤ halfEven (50 + 30 * r) := by
    have : (50 : ℤ) ≤ ⌊(50 : ℚ) + 30 * r⌋ := by
      rw [Int.le_floor]
      push_cast
      linarith
    exact le_trans this (halfEven_ge_floor _)
  have hle : halfEven (50 + 30 * r) ≤ 80 := by
    rcases lt_or_eq_of_le hhigh with hlt | heq
    · have hfl : ⌊(50 : ℚ) + 30 * r⌋ < 80 := by
        rw [Int.floor_lt]
        push_cast
        linarith
      have := halfEven_le_floor_add_one ((50 : ℚ) + 30 * r)
      omega
    · rw [heq]
      have : halfEven (80 : ℚ) = 80 := by
        unfold halfEven
        norm_num
      rw [this]
  refine ⟨(halfEven (50 + 30 * r)).toNat, by omega, by omega, ?_⟩
  congr 1
  exact_mod_cast (Int.toNat_of_nonneg (by omega : (0 : ℤ) ≤ halfEven (50 + 30 * r))).symm

/-! ### Claims C3, C4, C5, C6, C7 -/

/-- C3 (counterexample): name normalization is not idempotent — the
punctuation removal runs after the trailing-dash strip, so
`normalize("foo -.")` is `"foo -"`, while a second application strips the
now-exposed trailing dash and yields `"foo"`. -/
theorem C3_normalize_idempotent_counterexample :
    pyNormalize "foo -." = "foo -" ∧ pyNormalize "foo -" = "foo" ∧
    pyNormalize (pyNormalize "foo -.") ≠ pyNormalize "foo -." := by
  refine ⟨by decide, by decide, by decide⟩

/-- C3 (amended): normalization is idempotent on every input whose
normalized form carries no residue that a second pass could strip — that
is, whenever `normalize(x)` is itself fixed by the code-mark strip, the
phase strip, the trailing-dash strip, and the collapse/strip/lowercase
step.  (The dash unification, the letter-label strip, the parenthesis
removal and the punctuation filter are always the identity on a
normalized string, proved unconditionally.) -/
theorem C3_normalize_idempotent_amended (x : String)
    (h3 : stripCodeMark (pyNormalize x).data = (pyNormalize x).data)
    (h4 : phaseSub (pyNormalize x).data = (pyNormalize x).data)
    (h6 : stripTrailDash (pyNormalize x).data = (pyNormalize x).data)
    (h7 : collapseStripLower (pyNormalize x).data = (pyNormalize x).data) :
    pyNormalize (pyNormalize x) = pyNormalize x := by
  have hkeep : ∀ c ∈ (pyNormalize x).data, keepCh c = true := by
    intro c hc
    exact punctFilter_mem hc
  have h1 : dashReplace (pyNormalize x).data = (pyNormalize x).data := by
    apply mapFixed
    intro c hc
    have hk := hkeep c hc
    have hne1 : (c == '–') = false := by
      cases hd : c == '–'
      · rfl
      · exfalso
        have : c = '–' := by
          exact eq_of_beq hd
        rw [this] at hk
        exact absurd hk (by decide)
    have hne2 : (c == '—') = false := by
      cases hd : c == '—'
      · rfl
      · exfalso
        have : c = '—' := by
          exact eq_of_beq hd
        rw [this] at hk
        exact absurd hk (by decide)
    simp [hne1, hne2]
  have h2 : stripLetterLabel (pyNormalize x).data = (pyNormalize x).data :=
    stripLetterLabel_id _ hkeep
  have h5 : parenSub (pyNormalize x).data = (pyNormalize x).data := by
    apply parenGo_id
    intro c hc
    cases hd : c == '('
    · rfl
    · exfalso
      have : c = '(' := eq_of_beq hd
      have hk := hkeep c hc
      rw [this] at hk
      exact absurd hk (by decide)
  have h8 : punctFilter (pyNormalize x).data = (pyNormalize x).data :=
    List.filter_eq_self.mpr hkeep
  show (⟨normChars (pyNormalize x).data⟩ : String) = pyNormalize x
  unfold normChars
  rw [h1, h2, h3, h4, h5, h6, h7, h8]

/-- C3 (witness for the amended theorem). -/
theorem C3_normalize_idempotent_witness :
    pyNormalize (pyNormalize "Vista Verde") = pyNormalize "Vista Verde" :=
  C3_normalize_idempotent_amended "Vista Verde"
    (by decide) (by decide) (by decide) (by decide)

/-- C4: with the canonical project "Happy One Morri" in the database and
no alias entry, matching "Happy One Morri – (P1) Block Tochi" strips the
phase marker and the trailing block name, misses the exact tier, hits the
normalized tier and returns the project id with confidence 0.9 ≥ 0.5. -/
theorem C4_happy_one_morri :
    matchProjects happyProjects [] happyInput = (some 1, 9/10) ∧
    pyNormalize happyInput = "happy one morri" ∧
    (buildCache happyProjects).find?
      (fun e => toLowerStr e.2.2 == toLowerStr (pyStrip happyInput)) = none ∧
    (1/2 : ℚ) ≤ (matchProjects happyProjects [] happyInput).2 := by
  have h1 : matchProjects happyProjects [] happyInput = (some 1, 9/10) := rfl
  refine ⟨h1, by decide, by decide, ?_⟩
  rw [h1]
  norm_num

/-- C5: the code passes the concatenated checkmark-line text — not the
row's free-text description — to the keyword inference.  On a row with
zero checkmark glyphs (checks text "N/A") and description "Near metro
station" the code emits no categories at all, although inference on the
description yields ["location"]; on a one-checkmark row it always falls
back to the first declared column (e.g. "old_project") even when the
description names a different factor ("bank_loan"). -/
theorem C5_checkmark_divergence :
    detectCheckedFactors "N/A" increaseFactorCols = [] ∧
    inferFactors "Near metro station" increaseFactorCols = ["location"] ∧
    detectCheckedFactors "ü" decreaseFactorCols = ["old_project"] ∧
    inferFactors "Bank loan interest rate increased" decreaseFactorCols =
      ["bank_loan"] ∧
    detectCheckedFactors "N/A" increaseFactorCols ≠
      inferFactors "Near metro station" increaseFactorCols := by
  refine ⟨by decide, by decide, by decide, by decide, by decide⟩

/-- C6 (counterexample): in the emitted records a literal "-" is not
distinct from an explicit zero — the collected `None` is written out as
`0.0`, so the dash input and the "0 %" input produce identical record
lists. -/
theorem C6_dash_missing_counterexample :
    extractSegmentsCityPart segDemoDash = extractSegmentsCityPart segDemoZero ∧
    (extractSegmentsCityPart segDemoDash)[1]? =
      some (segRecordOf "Binh Duong" "mid-end" none) ∧
    (segRecordOf "Binh Duong" "mid-end" none).proportionPct = 0 := by
  refine ⟨rfl, rfl, rfl⟩

/-- C6 (amended): in the collected value sequence a literal "-" is
recorded as `none` — distinct from an explicit "0 %" line, which is
recorded as `some 0` — and it consumes one position, so the positional
assignment (4 grade values per city in encounter order) continues past
it; but when records are emitted the missing value is coerced to `0.0`,
indistinguishable from an explicit zero. -/
theorem C6_dash_missing_amended :
    (∀ (rest : List String) (cities : List String) (pcts : List (Option ℚ))
        (past : Bool),
      collectSegGo ("-" :: rest) cities pcts past =
        collectSegGo rest cities (pcts ++ [none]) true) ∧
    (∀ (rest : List String) (cities : List String) (pcts : List (Option ℚ))
        (past : Bool),
      collectSegGo ("0 %" :: rest) cities pcts past =
        collectSegGo rest cities (pcts ++ [some ((0 : ℕ) : ℚ)]) true) ∧
    (none : Option ℚ) ≠ some ((0 : ℕ) : ℚ) ∧
    (∀ (city : String) (a b d : ℚ),
      assignCities [city] [some a, none, some b, some d] =
        [segRecordOf city "affordable" (some a),
         segRecordOf city "mid-end" none,
         segRecordOf city "high-end" (some b),
         segRecordOf city "luxury" (some d)]) ∧
    (∀ (city : String), (segRecordOf city "mid-end" none).proportionPct = 0) := by
  refine ⟨fun rest cities pcts past => rfl, fun rest cities pcts past => rfl,
    by decide, fun city a b d => rfl, fun city => rfl⟩

/-- C7: absorption extraction returns the parsed rate and unit counts for
the "Sold 97% (809/836 units)" shape, rate 100 with no counts for
"Sold out", and `None` — not zero — for every input in which neither the
absorption pattern nor the sold-out fallback matches (e.g. "no data"). -/
theorem C7_extract_absorption :
    extractAbsorption "Sold 97% (809/836 units)" =
      some ⟨97, some 809, some 836⟩ ∧
    extractAbsorption "Sold out" = some ⟨100, none, none⟩ ∧
    extractAbsorption "no data" = none ∧
    ∀ s : String, absorbSearch s.data = none → soldOutSearch s.data = false →
      extractAbsorption s = none := by
  have hbase : extractAbsorption "Sold 97% (809/836 units)" =
      some ⟨rateToRat ['9', '7'] [], some 809, some 836⟩ := rfl
  have hrate : rateToRat ['9', '7'] [] = 97 := by
    have hd : digitsToNat ['9', '7'] = 97 := by decide
    have hd0 : digitsToNat ([] : List Char) = 0 := rfl
    unfold rateToRat
    rw [hd, hd0]
    norm_num
  refine ⟨by rw [hbase, hrate], rfl, rfl, ?_⟩
  intro s h1 h2
  unfold extractAbsorption
  rw [h1, h2]
  simp

/-- C7 (witness): the universally quantified conjunct applied at the
concrete input "no data". -/
theorem C7_extract_absorption_witness :
    extractAbsorption "no data" = none :=
  C7_extract_absorption.2.2.2 "no data" (by decide) (by decide)

/-! ### Helper lemmas for the tier-4 substring loop -/

/-- Any hit produced by folding the tier-4 step comes from a cache entry,
with the rounded length-ratio confidence and a nonempty overlap. -/
theorem tier4_fold_some (lower : String) :
    ∀ (cache : List (String × Nat × String)) (acc : Nat × Option (Nat × ℚ))
      (pid : Nat) (c : ℚ),
      (cache.foldl (tier4Step lower) acc).2 = some (pid, c) →
      acc.2 = some (pid, c) ∨
        ∃ e ∈ cache, pid = e.2.1 ∧
          0 < min (toLowerStr e.2.2).data.length lower.data.length ∧
          c = subConf (toLowerStr e.2.2) lower := by
  intro cache
  induction cache with
  | nil =>
    intro acc pid c h
    exact Or.inl h
  | cons e rest ih =>
    intro acc pid c h
    rw [List.foldl_cons] at h
    rcases ih (tier4Step lower acc e) pid c h with hacc | ⟨e', he', h1, h2, h3⟩
    · simp only [tier4Step] at hacc
      split_ifs at hacc with hcont hlen
      · right
        have hx := Option.some.inj hacc
        refine ⟨e, List.mem_cons_self e rest, ?_, ?_, ?_⟩
        · exact (congrArg Prod.fst hx).symm
        · omega
        · exact (congrArg Prod.snd hx).symm
      · exact Or.inl hacc
      · exact Or.inl hacc
    · exact Or.inr ⟨e', List.mem_cons_of_mem e he', h1, h2, h3⟩

/-! ### Claim C8 -/

/-- C8: a tier-4 hit carries confidence `round(0.5 + 0.3 × overlap/max, 2)`
computed against the cache entry it came from, where the overlap is the
length of the shorter of the two contained strings; and for a fixed
canonical name the confidence is monotone in the overlap ratio, so of two
inputs substring-matched against the same canonical name the one with the
greater ratio never receives a lower confidence. -/
theorem C8_substring_confidence :
    (∀ (cache : List (String × Nat × String)) (lower : String)
        (pid : Nat) (c : ℚ),
      (cache.foldl (tier4Step lower) (0, none)).2 = some (pid, c) →
      ∃ e ∈ cache, pid = e.2.1 ∧ c = subConf (toLowerStr e.2.2) lower) ∧
    (∀ nm u v : String, overlapRatio nm v ≤ overlapRatio nm u →
      subConf nm v ≤ subConf nm u) := by
  constructor
  · intro cache lower pid c h
    rcases tier4_fold_some lower cache (0, none) pid c h with hacc | ⟨e, he, h1, _, h3⟩
    · exact absurd hacc (by simp)
    · exact ⟨e, he, h1, h3⟩
  · intro nm u v hr
    unfold subConf
    apply round2_mono
    have h3 : (3 : ℚ)/10 * overlapRatio nm v ≤ 3/10 * overlapRatio nm u :=
      mul_le_mul_of_nonneg_left hr (by norm_num)
    linarith

/-- C8 (witness): the formula conjunct applied to a one-entry cache and
the input "noble crystal ta", and the monotonicity conjunct applied to the
inputs "ab" (ratio 1) and "xab" (ratio 2/3) against the canonical name
"ab". -/
theorem C8_substring_confidence_witness :
    (∃ e ∈ c8DemoCache, 8 = e.2.1 ∧
      subConf (toLowerStr "Noble Crystal Tay Ho") "noble crystal ta" =
        subConf (toLowerStr e.2.2) "noble crystal ta") ∧
    subConf "ab" "xab" ≤ subConf "ab" "ab" := by
  constructor
  · exact C8_substring_confidence.1 c8DemoCache "noble crystal ta" 8
      (subConf (toLowerStr "Noble Crystal Tay Ho") "noble crystal ta") rfl
  · apply C8_substring_confidence.2 "ab" "ab" "xab"
    unfold overlapRatio
    rw [show ("ab".data.length) = 2 from rfl, show ("xab".data.length) = 3 from rfl,
      show min 2 3 = 2 from rfl, show max 2 3 = 3 from rfl,
      show min 2 2 = 2 from rfl, show max 2 2 = 2 from rfl]
    norm_num

/-! ### Claim C10 -/

/-- Shape analysis of `ProjectMatcher.match`: every result is a junk/no-hit
`(None, 0.0)`, an exact hit at 1.0, an alias hit at 0.95, a normalized hit
at 0.9, or a substring hit at an exact two-decimal value in [0.50, 0.80]. -/
theorem matcherMatch_shape (cache : List (String × Nat × String))
    (nameToId : List (String × Nat)) (aliases : List (String × String))
    (extracted : String) :
    matcherMatch cache nameToId aliases extracted = (none, 0) ∨
    (∃ pid : Nat, matcherMatch cache nameToId aliases extracted = (some pid, 1)) ∨
    (∃ pid : Nat, matcherMatch cache nameToId aliases extracted = (some pid, 95/100)) ∨
    (∃ pid : Nat, matcherMatch cache nameToId aliases extracted = (some pid, 9/10)) ∨
    (∃ (pid : Nat) (k : ℕ), 50 ≤ k ∧ k ≤ 80 ∧
      matcherMatch cache nameToId aliases extracted = (some pid, (k : ℚ)/100)) := by
  unfold matcherMatch
  split_ifs with h1 h2
  · exact Or.inl rfl
  · exact Or.inl rfl
  · cases hf : cache.find?
        (fun e => toLowerStr e.2.2 == toLowerStr (pyStrip extracted)) with
    | some e =>
      simp only [hf]
      exact Or.inr (Or.inl ⟨e.2.1, rfl⟩)
    | none =>
      simp only [hf]
      cases ha : tryAlias aliases nameToId extracted with
      | some pid =>
        simp only [ha]
        exact Or.inr (Or.inr (Or.inl ⟨pid, rfl⟩))
      | none =>
        simp only [ha]
        cases hn : dictFind? cache (pyNormalize extracted) with
        | some v =>
          simp only [hn]
          exact Or.inr (Or.inr (Or.inr (Or.inl ⟨v.1, rfl⟩)))
        | none =>
          simp only [hn]
          cases hfold : (cache.foldl
              (tier4Step (toLowerStr (pyStrip extracted))) (0, none)).2 with
          | none =>
            exact Or.inl rfl
          | some bm =>
            obtain ⟨pid, c⟩ := bm
            rcases tier4_fold_some (toLowerStr (pyStrip extracted)) cache
                (0, none) pid c hfold with hacc | ⟨e, _, _, hpos, hc⟩
            · exact absurd hacc (by simp)
            · obtain ⟨k, hk1, hk2, hk3⟩ :=
                subConf_mem (toLowerStr e.2.2) (toLowerStr (pyStrip extracted)) hpos
              refine Or.inr (Or.inr (Or.inr (Or.inr ⟨pid, k, hk1, hk2, ?_⟩)))
              rw [hc, hk3]

/-- C10 (amended): for every matcher state and input, the returned id is
`None` exactly when the returned confidence is 0.0, the confidence lies in
[0, 1], and it is one of 1.0, 0.95, 0.9, a two-decimal value in the
closed interval [0.50, 0.80] (the substring tier can return exactly 0.50
when the overlap ratio is small), or 0.0. -/
theorem C10_match_invariant_amended (cache : List (String × Nat × String))
    (nameToId : List (String × Nat)) (aliases : List (String × String))
    (extracted : String) :
    ((matcherMatch cache nameToId aliases extracted).1 = none ↔
      (matcherMatch cache nameToId aliases extracted).2 = 0) ∧
    0 ≤ (matcherMatch cache nameToId aliases extracted).2 ∧
    (matcherMatch cache nameToId aliases extracted).2 ≤ 1 ∧
    ((matcherMatch cache nameToId aliases extracted).2 = 0 ∨
     (matcherMatch cache nameToId aliases extracted).2 = 1 ∨
     (matcherMatch cache nameToId aliases extracted).2 = 95/100 ∨
     (matcherMatch cache nameToId aliases extracted).2 = 9/10 ∨
     ∃ k : ℕ, 50 ≤ k ∧ k ≤ 80 ∧
       (matcherMatch cache nameToId aliases extracted).2 = (k : ℚ)/100) := by
  rcases matcherMatch_shape cache nameToId aliases extracted with
    h | ⟨pid, h⟩ | ⟨pid, h⟩ | ⟨pid, h⟩ | ⟨pid, k, hk1, hk2, h⟩ <;> rw [h]
  · exact ⟨by simp, le_refl 0, by norm_num, Or.inl rfl⟩
  · refine ⟨⟨fun hh => absurd hh (by simp), fun hh => absurd hh (by norm_num)⟩,
      by norm_num, by norm_num, Or.inr (Or.inl rfl)⟩
  · refine ⟨⟨fun hh => absurd hh (by simp), fun hh => absurd hh (by norm_num)⟩,
      by norm_num, by norm_num, Or.inr (Or.inr (Or.inl rfl))⟩
  · refine ⟨⟨fun hh => absurd hh (by simp), fun hh => absurd hh (by norm_num)⟩,
      by norm_num, by norm_num, Or.inr (Or.inr (Or.inr (Or.inl rfl)))⟩
  · have hkpos : (0 : ℚ) < (k : ℚ)/100 := by
      apply div_pos _ (by norm_num)
      exact_mod_cast (by omega : 0 < k)
    have hkle : ((k : ℚ))/100 ≤ 1 := by
      rw [div_le_one (by norm_num)]
      exact_mod_cast (by omega : k ≤ 100)
    refine ⟨⟨fun hh => absurd hh (by simp),
        fun hh => absurd hh (by simp; linarith)⟩,
      le_of_lt hkpos, hkle,
      Or.inr (Or.inr (Or.inr (Or.inr ⟨k, hk1, hk2, rfl⟩)))⟩

/-- C10 (counterexample to the claim as stated): on a 61-character input
containing the one-letter canonical name "q", the matcher returns the id
with confidence exactly 0.50, which lies outside the claimed open
interval (0.5, 0.8] and is none of 1.0, 0.95, 0.9, 0.0. -/
theorem C10_match_invariant_counterexample :
    matchProjects qProjects [] longQ = (some 1, 1/2) ∧
    ¬((1 : ℚ)/2 = 1 ∨ (1 : ℚ)/2 = 95/100 ∨ (1 : ℚ)/2 = 9/10 ∨
      ((1 : ℚ)/2 < 1/2 ∧ (1 : ℚ)/2 ≤ 4/5) ∨ (1 : ℚ)/2 = 0) ∧
    ¬((1 : ℚ)/2 < (1 : ℚ)/2) := by
  have h0 : matchProjects qProjects [] longQ =
      (some 1, round2 (1/2 + 3/10 * (((1 : ℕ) : ℚ) / ((61 : ℕ) : ℚ)))) := rfl
  have h1 : round2 (1/2 + 3/10 * (((1 : ℕ) : ℚ) / ((61 : ℕ) : ℚ))) =
      ((50 : ℤ) : ℚ)/100 := by
    apply round2_eq_of
    · push_cast
      norm_num
    · push_cast
      norm_num
  have h2 : ((50 : ℤ) : ℚ)/100 = 1/2 := by norm_num
  refine ⟨?_, by norm_num, by norm_num⟩
  rw [h0, h1, h2]

/-! ### Claim C9 -/

theorem splitGo_length (text : List Char) :
    ∀ (l : List PatMatch) (j : Nat), (splitGo text j l).length = l.length := by
  intro l
  induction l with
  | nil => intro j; rfl
  | cons m rest ih =>
    intro j
    simp only [splitGo, List.length_cons]
    rw [ih (j + 1)]

theorem splitGo_getElem? (text : List Char) :
    ∀ (l : List PatMatch) (j i : Nat) (m : PatMatch), l[i]? = some m →
      (splitGo text j l)[i]? = some
        { number := m.number.getD (toString (j + i + 1)),
          name := pyStrip m.name,
          content := ⟨pyStripChars (pySlice text m.mEnd
            (match l[i + 1]? with
             | some m2 => m2.mStart
             | none => text.length))⟩ } := by
  intro l
  induction l with
  | nil =>
    intro j i m h
    simp at h
  | cons m0 rest ih =>
    intro j i m h
    cases i with
    | zero =>
      simp only [List.getElem?_cons_zero, Option.some.injEq] at h
      subst h
      cases rest with
      | nil => simp [splitGo]
      | cons m2 r2 => simp [splitGo]
    | succ i' =>
      have hrest : rest[i']? = some m := by simpa using h
      have hih := ih (j + 1) i' m hrest
      have harith : j + 1 + i' + 1 = j + (i' + 1) + 1 := by omega
      rw [harith] at hih
      simpa [splitGo] using hih

/-- C9: when the header pattern matches nowhere, `split_by_projects`
returns the empty list (no exception — the embedding is a total
function); when it matches, one section per match is produced, and the
i-th section's content is the (stripped) text span from that match's end
to the next match's start, or to the end of the text for the last
section. -/
theorem C9_split_by_projects (text : String) (ms : List PatMatch) :
    (ms = [] → splitByProjects text ms = []) ∧
    (splitByProjects text ms).length = ms.length ∧
    (∀ (i : Nat) (m : PatMatch), ms[i]? = some m →
      (splitByProjects text ms)[i]? = some
        { number := m.number.getD (toString (i + 1)),
          name := pyStrip m.name,
          content := ⟨pyStripChars (pySlice text.data m.mEnd
            (match ms[i + 1]? with
             | some m2 => m2.mStart
             | none => text.data.length))⟩ }) := by
  refine ⟨?_, splitGo_length text.data ms 0, ?_⟩
  · intro h
    rw [h]
    rfl
  · intro i m h
    have := splitGo_getElem? text.data ms 0 i m h
    simpa using this

/-- C9 (witness): the theorem applied to an empty match list and to a
two-header demo text. -/
theorem C9_split_by_projects_witness :
    splitByProjects "xyz" [] = [] ∧
    (splitByProjects demoSplitText demoSplitMatches)[0]? =
      some ⟨"1", "H1", "aaa bbb"⟩ := by
  constructor
  · exact (C9_split_by_projects "xyz" []).1 rfl
  · have h := (C9_split_by_projects demoSplitText demoSplitMatches).2.2 0
      ⟨0, 8, "H1", none⟩ rfl
    exact h.trans (by rfl)

/-! ### Claim C2 -/

/-- C2 (counterexample to the claim as stated): when the default fields
override a natural-key field, the created row does not carry the queried
key, so the second identical call creates a second row and a second
provenance record instead of returning the first with `created=False`. -/
theorem C2_get_or_create_idempotent_counterexample :
    (getOrCreateWithLineage
      (getOrCreateWithLineage c2Store0 "projects" 1 none (4/5)
        c2BadDefaults c2Kwargs).2.2
      "projects" 1 none (4/5) c2BadDefaults c2Kwargs).2.1 = true ∧
    (getOrCreateWithLineage
      (getOrCreateWithLineage c2Store0 "projects" 1 none (4/5)
        c2BadDefaults c2Kwargs).2.2
      "projects" 1 none (4/5) c2BadDefaults c2Kwargs).2.2.entities.length = 2 ∧
    (getOrCreateWithLineage
      (getOrCreateWithLineage c2Store0 "projects" 1 none (4/5)
        c2BadDefaults c2Kwargs).2.2
      "projects" 1 none (4/5) c2BadDefaults c2Kwargs).2.2.lineage.length = 2 ∧
    (getOrCreateWithLineage c2Store0 "projects" 1 none (4/5)
      c2BadDefaults c2Kwargs).2.2.entities.length = 1 := by
  exact ⟨rfl, rfl, rfl, rfl⟩

/-- C2 (amended): `get_or_create` (with lineage) is idempotent provided
the default fields do not override a natural-key field — formally,
whenever the merged creation parameters still carry every queried
keyword value.  The second identical call returns the same row with
`created=False` and leaves the store (entities and provenance records)
unchanged. -/
theorem C2_get_or_create_idempotent_amended {V : Type} [DecidableEq V]
    (s0 : Store V) (tn : String) (sr : Nat) (pg : Option Nat) (cf : ℚ)
    (defaults kwargs : List (String × V))
    (hcompat : ∀ kv ∈ kwargs,
      dictFind? (mergeParams kwargs defaults) kv.1 = some kv.2) :
    (getOrCreateWithLineage
        (getOrCreateWithLineage s0 tn sr pg cf defaults kwargs).2.2
        tn sr pg cf defaults kwargs).1 =
      (getOrCreateWithLineage s0 tn sr pg cf defaults kwargs).1 ∧
    (getOrCreateWithLineage
        (getOrCreateWithLineage s0 tn sr pg cf defaults kwargs).2.2
        tn sr pg cf defaults kwargs).2.1 = false ∧
    (getOrCreateWithLineage
        (getOrCreateWithLineage s0 tn sr pg cf defaults kwargs).2.2
        tn sr pg cf defaults kwargs).2.2 =
      (getOrCreateWithLineage s0 tn sr pg cf defaults kwargs).2.2 := by
  cases hf : s0.entities.find? (rowMatches kwargs) with
  | some r =>
    have hL1 : getOrCreateWithLineage s0 tn sr pg cf defaults kwargs =
        (r, false, s0) := by
      unfold getOrCreateWithLineage getOrCreate
      rw [hf]
      rfl
    rw [hL1]
    rw [hL1]
    exact ⟨rfl, rfl, rfl⟩
  | none =>
    have hL1 : getOrCreateWithLineage s0 tn sr pg cf defaults kwargs =
        (⟨s0.nextId, mergeParams kwargs defaults⟩, true,
          { entities := s0.entities ++ [⟨s0.nextId, mergeParams kwargs defaults⟩],
            lineage := s0.lineage ++ [⟨tn, s0.nextId, sr, pg, cf⟩],
            nextId := s0.nextId + 1 }) := by
      unfold getOrCreateWithLineage getOrCreate
      rw [hf]
      rfl
    have hmatch : rowMatches kwargs
        (⟨s0.nextId, mergeParams kwargs defaults⟩ : Row V) = true := by
      unfold rowMatches
      rw [List.all_eq_true]
      intro kv hkv
      show (dictFind? (mergeParams kwargs defaults) kv.1 == some kv.2) = true
      rw [hcompat kv hkv]
      simp
    have hf2 : (s0.entities ++
        [(⟨s0.nextId, mergeParams kwargs defaults⟩ : Row V)]).find?
          (rowMatches kwargs) =
        some ⟨s0.nextId, mergeParams kwargs defaults⟩ := by
      rw [List.find?_append, hf]
      simp [List.find?_cons, hmatch]
    have hL2 : getOrCreateWithLineage
        ({ entities := s0.entities ++ [⟨s0.nextId, mergeParams kwargs defaults⟩],
           lineage := s0.lineage ++ [⟨tn, s0.nextId, sr, pg, cf⟩],
           nextId := s0.nextId + 1 } : Store V) tn sr pg cf defaults kwargs =
        (⟨s0.nextId, mergeParams kwargs defaults⟩, false,
          { entities := s0.entities ++ [⟨s0.nextId, mergeParams kwargs defaults⟩],
            lineage := s0.lineage ++ [⟨tn, s0.nextId, sr, pg, cf⟩],
            nextId := s0.nextId + 1 }) := by
      unfold getOrCreateWithLineage getOrCreate
      rw [hf2]
      rfl
    rw [hL1, hL2]
    exact ⟨rfl, rfl, rfl⟩

/-- C2 (witness): the amended theorem applied to an empty store, the
natural key `name = "A"` and the disjoint defaults `grade = "B"`. -/
theorem C2_get_or_create_idempotent_witness :
    (getOrCreateWithLineage
        (getOrCreateWithLineage c2Store0 "projects" 1 none (4/5)
          c2GoodDefaults c2Kwargs).2.2
        "projects" 1 none (4/5) c2GoodDefaults c2Kwargs).2.1 = false ∧
    (getOrCreateWithLineage
        (getOrCreateWithLineage c2Store0 "projects" 1 none (4/5)
          c2GoodDefaults c2Kwargs).2.2
        "projects" 1 none (4/5) c2GoodDefaults c2Kwargs).2.2 =
      (getOrCreateWithLineage c2Store0 "projects" 1 none (4/5)
        c2GoodDefaults c2Kwargs).2.2 := by
  have h := C2_get_or_create_idempotent_amended c2Store0 "projects" 1 none (4/5)
    c2GoodDefaults c2Kwargs (by decide)
  exact ⟨h.2.1, h.2.2⟩

/-! ### Claim C1 -/

theorem dictInsert_append {α : Type} (d : List (String × α)) (k : String) (v : α)
    (h : ∀ e ∈ d, (e.1 == k) = false) : dictInsert d k v = d ++ [(k, v)] := by
  unfold dictInsert
  rw [if_neg]
  intro hc
  rw [List.any_eq_true] at hc
  obtain ⟨e, he, hbeq⟩ := hc
  rw [h e he] at hbeq
  exact absurd hbeq (by simp)

set_option maxHeartbeats 1000000 in
theorem buildCacheGo (ps : List Project) :
    ∀ (acc : List (String × Nat × String)),
      (ps.map (fun q => pyNormalize q.name)).Nodup →
      (∀ q ∈ ps, ∀ e ∈ acc, (e.1 == pyNormalize q.name) = false) →
      ps.foldl (fun d p => dictInsert d (pyNormalize p.name) (p.id, p.name)) acc =
        acc ++ ps.map (fun p => (pyNormalize p.name, p.id, p.name)) := by
  induction ps with
  | nil =>
    intro acc _ _
    simp
  | cons p rest ih =>
    intro acc hnd hacc
    rw [List.map_cons] at hnd
    have hside : ∀ q ∈ rest, ∀ e ∈ acc ++ [(pyNormalize p.name, p.id, p.name)],
        (e.1 == pyNormalize q.name) = false := by
      intro q hq e he
      rcases List.mem_append.mp he with h1 | h2
      · exact hacc q (List.mem_cons_of_mem p hq) e h1
      · rw [List.mem_singleton.mp h2]
        show (pyNormalize p.name == pyNormalize q.name) = false
        have hnotin : pyNormalize p.name ∉ rest.map (fun r => pyNormalize r.name) :=
          (List.nodup_cons.mp hnd).1
        exact beq_eq_false_iff_ne.mpr
          (fun hEq => hnotin (List.mem_map.mpr ⟨q, hq, hEq.symm⟩))
    rw [List.foldl_cons,
      dictInsert_append acc (pyNormalize p.name) (p.id, p.name)
        (hacc p (List.mem_cons_self p rest)),
      ih (acc ++ [(pyNormalize p.name, p.id, p.name)]) (List.Nodup.of_cons hnd) hside]
    simp

/-- With pairwise-distinct normalized names, `_load_projects` fills the
cache with one entry per project, in load order. -/
theorem buildCache_eq (ps : List Project)
    (hnd : (ps.map (fun q => pyNormalize q.name)).Nodup) :
    buildCache ps = ps.map (fun p => (pyNormalize p.name, p.id, p.name)) := by
  unfold buildCache
  rw [buildCacheGo ps [] hnd (by intro q hq e he; simp at he)]
  simp

theorem findFirstLower (ps : List Project) (p : Project) (lower : String) :
    p ∈ ps → toLowerStr p.name = lower →
    (ps.map (fun q => toLowerStr q.name)).Nodup →
    (ps.map (fun q => (pyNormalize q.name, q.id, q.name))).find?
      (fun e => toLowerStr e.2.2 == lower) =
      some (pyNormalize p.name, p.id, p.name) := by
  induction ps with
  | nil =>
    intro h
    simp at h
  | cons q rest ih =>
    intro hmem hl hnd
    rw [List.map_cons] at hnd
    rw [List.map_cons]
    by_cases hq : toLowerStr q.name = lower
    · rw [List.find?_cons_of_pos _ (by simpa using hq)]
      have hpq : p = q := by
        rcases List.mem_cons.mp hmem with h | hrest
        · exact h
        · exfalso
          have h1 : toLowerStr p.name ∈ rest.map (fun r => toLowerStr r.name) :=
            List.mem_map_of_mem (fun r => toLowerStr r.name) hrest
          have h2 := (List.nodup_cons.mp hnd).1
          rw [hl, ← hq] at h1
          exact h2 h1
      rw [hpq]
    · rw [List.find?_cons_of_neg _ (by simpa using hq)]
      have hp : p ∈ rest := by
        rcases List.mem_cons.mp hmem with h | hrest
        · exact absurd (h ▸ hl) hq
        · exact hrest
      exact ih hp hl (List.Nodup.of_cons hnd)

/-- C1 (counterexample to the claim as stated): the canonical name
"Hawaii" is rejected by the junk filter before the exact tier is reached,
so matching it returns `(None, 0.0)` rather than its id at 1.0. -/
theorem C1_exact_match_counterexample :
    (⟨1, "Hawaii"⟩ : Project) ∈ hawaiiProjects ∧
    matchProjects hawaiiProjects [] "Hawaii" = (none, 0) := by
  exact ⟨by decide, rfl⟩

/-- C1 (amended): for every canonical project name that is not rejected
as junk, and whose lowercase and normalized forms are not shared with any
other project in the database, matching any letter-casing/outer-whitespace
variant of it returns that project's id with confidence exactly 1.0,
whatever the alias table. -/
theorem C1_exact_match_amended (ps : List Project)
    (aliases : List (String × String)) (p : Project) (variant : String)
    (hmem : p ∈ ps)
    (hvar : toLowerStr (pyStrip variant) = toLowerStr p.name)
    (hjunk : isJunkName variant = false)
    (hnorm : (ps.map (fun q => pyNormalize q.name)).Nodup)
    (hlow : (ps.map (fun q => toLowerStr q.name)).Nodup) :
    matchProjects ps aliases variant = (some p.id, 1) := by
  have hne : (variant == "") = false := by
    cases hb : variant == ""
    · rfl
    · exfalso
      have hv : variant = "" := eq_of_beq hb
      rw [hv] at hjunk
      exact absurd hjunk (by decide)
  unfold matchProjects matcherMatch
  rw [hne, hjunk]
  simp only [Bool.false_eq_true, if_false]
  rw [buildCache_eq ps hnorm,
    findFirstLower ps p (toLowerStr (pyStrip variant)) hmem hvar.symm hlow]

/-- C1 (witness): the amended theorem applied to a two-project database
and the variant " VISTA VERDE ". -/
theorem C1_exact_match_witness :
    matchProjects c1DemoProjects [] " VISTA VERDE " = (some 2, 1) :=
  C1_exact_match_amended c1DemoProjects [] ⟨2, "Vista Verde"⟩ " VISTA VERDE "
    (by decide) (by decide) (by decide) (by decide) (by decide)

end MRDev
